import Mathlib

/-!
Shallow embedding of the Cloud-Resource-Allocation repository.

The repository simulates a two-round resource-allocation game.  The parts
embedded here are the pure computational core:

* `src/CloudResourceAllocation/utils/calculations.py` — allocation generation,
  utility/constraint evaluation, contention-adjusted matrices, round-2 update;
* `src/CloudResourceAllocation/user/optimizer.py` — the brute-force optimizer;
* `src/CloudResourceAllocation/provider/resource_manager.py` — the coordinator;
* `src/CloudResourceAllocation/utils/config.py` — the concrete configuration.

Python floats are modelled as exact rationals (`ℚ`), Python ints as `Nat`,
Python lists as `List`, dicts as association lists.  Python exceptions are
modelled with `Except`.  List indexing `xs[i]` is modelled with `List.getD`;
all theorems carry shape hypotheses under which the Python code would not
raise an `IndexError`, so the `getD` defaults are never exercised there.
-/

set_option maxRecDepth 40000

namespace CloudResourceAllocation

/-! ### itertools.combinations

`generate_valid_allocations` iterates `itertools.combinations(range(m), k)`,
which yields the k-element subsequences of its input in lexicographic order
over index tuples.  `combinations` reproduces that enumeration. -/

/-- All length-`k` subsequences of `l`, in the order produced by Python's
`itertools.combinations`: subsequences containing the head come first. -/
def combinations {α : Type} : Nat → List α → List (List α)
  | 0, _ => [[]]
  | _ + 1, [] => []
  | k + 1, x :: xs => (combinations k xs).map (fun c => x :: c) ++ combinations (k + 1) xs

/-- The allocation vector built from an index subset: Python's
`allocation = [0]*m; for idx in comb: allocation[idx] = 1`. -/
def indicatorVector (m : Nat) (s : List Nat) : List Nat :=
  (List.range m).map (fun j => if j ∈ s then 1 else 0)

/-- Embedding of `generate_valid_allocations` (calculations.py, lines 11-39).
Raises `ValueError` when `num_subtasks > num_resources`, otherwise returns one
binary vector per `k`-combination of `range(m)`, in `itertools` order. -/
def generate_valid_allocations (num_subtasks num_resources : Nat) :
    Except String (List (List Nat)) :=
  if num_subtasks > num_resources then
    .error "Cannot allocate more subtasks than resources"
  else
    .ok ((combinations num_subtasks (List.range num_resources)).map
      (indicatorVector num_resources))

/-! ### Vector-level utility evaluation (calculations.py, lines 42-144) -/

/-- Python's `max` on a list, which raises on `[]`; the empty case returns a
junk value `0` here, and every theorem that touches it assumes a nonempty
vector (the data model requires `m ≥ 1`). -/
def maxD : List ℚ → ℚ
  | [] => 0
  | x :: xs => xs.foldl max x

/-- Embedding of `calculate_execution_time_vector`: base time where allocated,
else `0`. -/
def calculate_execution_time_vector (allocation_vector : List Nat)
    (execution_times : List ℚ) : List ℚ :=
  (List.range allocation_vector.length).map (fun j =>
    if allocation_vector.getD j 0 = 1 then execution_times.getD j 0 else 0)

/-- Embedding of `calculate_expense_vector`: entrywise
`alloc[j] * times[j] * prices[j]`. -/
def calculate_expense_vector (allocation_vector : List Nat)
    (execution_times resource_prices : List ℚ) : List ℚ :=
  (List.range allocation_vector.length).map (fun j =>
    (allocation_vector.getD j 0 : ℚ) * execution_times.getD j 0 *
      resource_prices.getD j 0)

/-- Embedding of `calculate_utility`:
`1 / (wt * max(time_vector) + we * sum(expense_vector))`, with value `0` when
the denominator is exactly `0`. -/
def calculate_utility (allocation_vector : List Nat)
    (execution_times resource_prices : List ℚ) (weight_time weight_expense : ℚ) : ℚ :=
  let time_vector := calculate_execution_time_vector allocation_vector execution_times
  let expense_vector :=
    calculate_expense_vector allocation_vector execution_times resource_prices
  let denominator := weight_time * maxD time_vector + weight_expense * expense_vector.sum
  if denominator = 0 then 0 else 1 / denominator

/-- The utility formula as a function of the two aggregates
`M = max(time_vector)` and `E = sum(expense_vector)`; used to state the
monotonicity claim the spec makes about `calculate_utility`. -/
def utilityOfCost (weight_time weight_expense M E : ℚ) : ℚ :=
  if weight_time * M + weight_expense * E = 0 then 0
  else 1 / (weight_time * M + weight_expense * E)

/-- Embedding of `check_constraints`:
`max(time_vector) <= deadline and sum(expense_vector) <= budget`. -/
def check_constraints (allocation_vector : List Nat)
    (execution_times resource_prices : List ℚ) (deadline budget : ℚ) : Bool :=
  let time_vector := calculate_execution_time_vector allocation_vector execution_times
  let expense_vector :=
    calculate_expense_vector allocation_vector execution_times resource_prices
  decide (maxD time_vector ≤ deadline ∧ expense_vector.sum ≤ budget)

/-! ### Contention-adjusted matrices (calculations.py, lines 147-275) -/

/-- Column sum of an allocation matrix: `sum(A[k][j] for k in range(n))`,
the multiplexing factor of resource `j`. -/
def colSum (allocation_matrix : List (List Nat)) (j : Nat) : Nat :=
  (allocation_matrix.map (fun row => row.getD j 0)).sum

/-- Column sum of a rational matrix (used by the round-2 update). -/
def colSumQ (matrix : List (List ℚ)) (j : Nat) : ℚ :=
  (matrix.map (fun row => row.getD j 0)).sum

/-- Embedding of `calculate_actual_execution_matrix`:
`t[i][j] = (Σ_k A[k][j]) * base[i][j]` when `A[i][j] == 1`, else `0`. -/
def calculate_actual_execution_matrix (allocation_matrix : List (List Nat))
    (base_execution_times : List (List ℚ)) : List (List ℚ) :=
  (List.range allocation_matrix.length).map (fun i =>
    (List.range (allocation_matrix.headD []).length).map (fun j =>
      if (allocation_matrix.getD i []).getD j 0 = 1 then
        (colSum allocation_matrix j : ℚ) * (base_execution_times.getD i []).getD j 0
      else 0))

/-- Embedding of `calculate_actual_expense_matrix`:
`e[i][j] = A[i][j] * base[i][j] * price[j]`, not scaled by contention. -/
def calculate_actual_expense_matrix (allocation_matrix : List (List Nat))
    (base_execution_times : List (List ℚ)) (resource_prices : List ℚ) :
    List (List ℚ) :=
  (List.range allocation_matrix.length).map (fun i =>
    (List.range (allocation_matrix.headD []).length).map (fun j =>
      ((allocation_matrix.getD i []).getD j 0 : ℚ) *
        (base_execution_times.getD i []).getD j 0 * resource_prices.getD j 0))

/-- Embedding of `calculate_actual_utility` (calculations.py, lines 216-242).
Note the `allocation_vector` parameter is accepted but never read by the body,
exactly as in the source. -/
def calculate_actual_utility (allocation_vector : List Nat)
    (actual_time_vector actual_expense_vector : List ℚ)
    (weight_time weight_expense : ℚ) : ℚ :=
  let max_time := if maxD actual_time_vector > 0 then maxD actual_time_vector else 0
  let total_expense := actual_expense_vector.sum
  let denominator := weight_time * max_time + weight_expense * total_expense
  if denominator = 0 then 0 else 1 / denominator

/-- Embedding of `update_execution_times_step2` (calculations.py, 245-275):
`new[i][j] = base[i][j] + (Σ_k actual[k][j]) / n`. -/
def update_execution_times_step2 (actual_times_step1 base_execution_times :
    List (List ℚ)) : List (List ℚ) :=
  (List.range actual_times_step1.length).map (fun i =>
    (List.range (actual_times_step1.headD []).length).map (fun j =>
      (base_execution_times.getD i []).getD j 0 +
        colSumQ actual_times_step1 j / (actual_times_step1.length : ℚ)))

/-! ### Configuration (config.py) -/

/-- Embedding of `STUDENT_ID_LAST_TWO` (config.py, line 7). -/
def STUDENT_ID_LAST_TWO : Nat := 88

/-- Embedding of `RESOURCE_PRICES` (config.py, line 10). -/
def RESOURCE_PRICES : List ℚ := [1, 6/5, 3/2, 9/5, 2]

/-- Embedding of `NUM_RESOURCES` (config.py, line 13). -/
def NUM_RESOURCES : Nat := 5

/-- Embedding of `EXECUTION_TIME_MATRIX` (config.py, lines 17-21). -/
def EXECUTION_TIME_MATRIX : List (List ℚ) :=
  [[5, 21/5, 18/5, 3, 14/5],
   [6, 5, 4, 7/2, 3],
   [4, 7/2, 16/5, 14/5, 12/5]]

/-- Embedding of the `NUM_SUBTASKS` dict (config.py, lines 24-28). -/
def NUM_SUBTASKS : List (String × Nat) := [("S1", 2), ("S2", 3), ("S3", 4)]

/-- Embedding of the `TASK_CONSTRAINTS` dict (config.py, lines 31-35) as
`user_id ↦ (deadline, budget)`. -/
def TASK_CONSTRAINTS : List (String × (ℚ × ℚ)) :=
  [("S1", (500, 20)), ("S2", (300, 30)), ("S3", (800, 30))]

/-- Embedding of the `WEIGHTS_TIME` dict (config.py, lines 41-45), with
`D = STUDENT_ID_LAST_TWO`. -/
def WEIGHTS_TIME : List (String × ℚ) :=
  [("S1", (STUDENT_ID_LAST_TWO : ℚ) / 100),
   ("S2", (((STUDENT_ID_LAST_TWO + 1) % 100 : Nat) : ℚ) / 100),
   ("S3", (((STUDENT_ID_LAST_TWO + 2) % 100 : Nat) : ℚ) / 100)]

/-- Embedding of the `WEIGHTS_EXPENSE` dict (config.py, lines 48-52):
`1 - WEIGHTS_TIME[u]` for each user. -/
def WEIGHTS_EXPENSE : List (String × ℚ) :=
  WEIGHTS_TIME.map (fun p => (p.1, 1 - p.2))

/-- Embedding of `USER_IDS` (config.py, line 55). -/
def USER_IDS : List String := ["S1", "S2", "S3"]

/-- Embedding of `get_execution_times` (config.py, lines 74-77). -/
def get_execution_times (user_id : String) : List ℚ :=
  EXECUTION_TIME_MATRIX.getD (USER_IDS.indexOf user_id) []

/-! ### The per-user optimizer (user/optimizer.py) -/

/-- One iteration of the `optimize_step1` loop: skip infeasible candidates,
record a feasible candidate exactly when its utility strictly exceeds the best
utility seen so far (which starts at `0`). -/
def optStep (execution_times resource_prices : List ℚ)
    (weight_time weight_expense deadline budget : ℚ)
    (st : Option (List Nat) × ℚ) (allocation : List Nat) :
    Option (List Nat) × ℚ :=
  if check_constraints allocation execution_times resource_prices deadline budget then
    let u := calculate_utility allocation execution_times resource_prices
      weight_time weight_expense
    if st.2 < u then (some allocation, u) else st
  else st

/-- Embedding of `UserOptimizer.optimize_step1` (optimizer.py, lines 60-114),
parametrised by the task configuration and the supplied execution-time vector.
The loop starts from `best_allocation = None, best_utility = 0`; when the loop
records nothing, the fallback returns the generator's first candidate and its
utility (the `[]` fallback case mirrors Python's `IndexError` on
`all_allocations[0]` and is unreachable when `k ≤ m`). -/
def optimize_step1 (num_subtasks num_resources : Nat)
    (execution_times resource_prices : List ℚ)
    (weight_time weight_expense deadline budget : ℚ) :
    Except String (List Nat × ℚ) :=
  match generate_valid_allocations num_subtasks num_resources with
  | .error e => .error e
  | .ok all_allocations =>
    let st := all_allocations.foldl
      (optStep execution_times resource_prices weight_time weight_expense
        deadline budget) (none, 0)
    match st.1 with
    | some best_allocation => .ok (best_allocation, st.2)
    | none =>
      match all_allocations with
      | [] => .error "IndexError: list index out of range"
      | a :: _ =>
        .ok (a, calculate_utility a execution_times resource_prices
          weight_time weight_expense)

/-! ### The coordinator (provider/resource_manager.py) -/

/-- The two `ValueError` raise sites of
`ResourceManager.process_allocations`: a submission-count mismatch
(`"Expected ... allocations, got ..."`) and a missing known task
(`"Missing allocation for ..."`). -/
inductive SubmissionError where
  | countMismatch (expected got : Nat)
  | missingAllocation (user_id : String)
deriving DecidableEq, Repr

/-- Result record of `process_allocations`: per-user results are
`(time_vector, expense_vector, max_time, total_expense)`. -/
structure ProcessResult where
  allocation_matrix : List (List Nat)
  time_matrix : List (List ℚ)
  expense_matrix : List (List ℚ)
  user_results : List (String × (List ℚ × List ℚ × ℚ × ℚ))
deriving DecidableEq, Repr

/-- State of a `ResourceManager`, fixed at construction
(resource_manager.py, lines 28-35). -/
structure ResourceManager where
  base_execution_times : List (List ℚ)
  resource_prices : List ℚ
  user_ids : List String

/-- The manager as initialised from the configuration constants. -/
def ResourceManager.init : ResourceManager :=
  ⟨EXECUTION_TIME_MATRIX, RESOURCE_PRICES, USER_IDS⟩

/-- The allocation-matrix construction loop of `process_allocations`:
iterate the known `user_ids` in canonical order and raise on the first user
whose vector is absent from the submission map. -/
def buildAllocationMatrix (user_ids : List String)
    (allocations : List (String × List Nat)) :
    Except SubmissionError (List (List Nat)) :=
  match user_ids with
  | [] => .ok []
  | uid :: rest =>
    match allocations.lookup uid with
    | none => .error (.missingAllocation uid)
    | some v =>
      match buildAllocationMatrix rest allocations with
      | .error e => .error e
      | .ok rows => .ok (v :: rows)

/-- Embedding of `ResourceManager.process_allocations` (resource_manager.py,
lines 37-106).  The submission dict is an association list with distinct keys.
Validation: first the count check, then the per-user membership check; on
success the actual time and expense matrices are computed from the manager's
`base_execution_times` (for `ResourceManager.init`, the original
`EXECUTION_TIME_MATRIX`). -/
def ResourceManager.process_allocations (mgr : ResourceManager)
    (allocations : List (String × List Nat)) :
    Except SubmissionError ProcessResult :=
  if allocations.length ≠ mgr.user_ids.length then
    .error (.countMismatch mgr.user_ids.length allocations.length)
  else
    match buildAllocationMatrix mgr.user_ids allocations with
    | .error e => .error e
    | .ok allocation_matrix =>
      let time_matrix :=
        calculate_actual_execution_matrix allocation_matrix mgr.base_execution_times
      let expense_matrix :=
        calculate_actual_expense_matrix allocation_matrix mgr.base_execution_times
          mgr.resource_prices
      let user_results := (List.range mgr.user_ids.length).map (fun i =>
        (mgr.user_ids.getD i "",
          (time_matrix.getD i [], expense_matrix.getD i [],
            maxD (time_matrix.getD i []), (expense_matrix.getD i []).sum)))
      .ok ⟨allocation_matrix, time_matrix, expense_matrix, user_results⟩

/-- Embedding of `ResourceManager.calculate_step2_execution_times`
(resource_manager.py, lines 140-173): same formula as
`update_execution_times_step2`, reading the manager's own base matrix. -/
def ResourceManager.calculate_step2_execution_times (mgr : ResourceManager)
    (time_matrix_step1 : List (List ℚ)) : List (List ℚ) :=
  (List.range time_matrix_step1.length).map (fun i =>
    (List.range (time_matrix_step1.headD []).length).map (fun j =>
      (mgr.base_execution_times.getD i []).getD j 0 +
        colSumQ time_matrix_step1 j / (time_matrix_step1.length : ℚ)))

/-! ### Helper lemmas: indexing into `range`-built vectors and matrices -/

/-- Reading entry `i` of a vector built from `List.range n`. -/
theorem getD_range_map {β : Type} (f : Nat → β) (d : β) (n i : Nat) (h : i < n) :
    ((List.range n).map f).getD i d = f i := by
  simp [List.getD_eq_getElem?_getD, List.getElem?_map, List.getElem?_range, h]

/-- Reading entry `(i, j)` of a matrix built from nested `List.range` maps. -/
theorem getD_range_matrix (g : Nat → Nat → ℚ) (n m i j : Nat)
    (hi : i < n) (hj : j < m) :
    ((((List.range n).map (fun i => (List.range m).map (g i))).getD i []).getD j 0)
      = g i j := by
  rw [getD_range_map _ _ _ _ hi, getD_range_map _ _ _ _ hj]

/-- The head of a nonempty list is a member. -/
theorem headD_mem {β : Type} (l : List β) (d : β) (h : l ≠ []) : l.headD d ∈ l := by
  cases l with
  | nil => exact absurd rfl h
  | cons a t => exact List.mem_cons_self a t

/-- The sum of a 0/1-valued list counts its `1` entries. -/
theorem sum_eq_countP_of_binary (l : List Nat) (h : ∀ x ∈ l, x = 0 ∨ x = 1) :
    l.sum = l.countP (fun x => x == 1) := by
  induction l with
  | nil => simp
  | cons a t ih =>
    have ha := h a (List.mem_cons_self a t)
    have ht := ih (fun x hx => h x (List.mem_cons_of_mem a hx))
    rcases ha with h0 | h1
    · simp [List.countP_cons, h0, ht]
    · simp [List.countP_cons, h1, ht, Nat.add_comm]

/-- For a binary allocation matrix, the column sum equals the number of rows
carrying a `1` in that column. -/
theorem colSum_eq_count (A : List (List Nat)) (j : Nat)
    (hbin : ∀ r ∈ A, ∀ x ∈ r, x = 0 ∨ x = 1) (m : Nat)
    (hrow : ∀ r ∈ A, r.length = m) (hj : j < m) :
    colSum A j = A.countP (fun r => r.getD j 0 == 1) := by
  unfold colSum
  rw [sum_eq_countP_of_binary, List.countP_map]
  · rfl
  · intro x hx
    rcases List.mem_map.1 hx with ⟨r, hr, rfl⟩
    have hlen := hrow r hr
    have : r.getD j 0 ∈ r := by
      have : j < r.length := hlen ▸ hj
      rw [List.getD_eq_getElem?_getD, List.getElem?_eq_getElem this]
      exact List.getElem_mem this
    exact hbin r hr _ this

/-- Entry formula for `calculate_actual_execution_matrix`. -/
theorem actual_execution_entry (A : List (List Nat)) (T : List (List ℚ))
    (m i j : Nat) (hA : A ≠ []) (hrow : ∀ r ∈ A, r.length = m)
    (hi : i < A.length) (hj : j < m) :
    (((calculate_actual_execution_matrix A T).getD i []).getD j 0)
      = if (A.getD i []).getD j 0 = 1 then
          (colSum A j : ℚ) * ((T.getD i []).getD j 0)
        else 0 := by
  have hhead : (A.headD []).length = m := hrow _ (headD_mem A [] hA)
  unfold calculate_actual_execution_matrix
  rw [hhead]
  exact getD_range_matrix
    (fun i j => if (A.getD i []).getD j 0 = 1 then
      (colSum A j : ℚ) * ((T.getD i []).getD j 0) else 0) A.length m i j hi hj

/-- Entry formula for `calculate_actual_expense_matrix`. -/
theorem actual_expense_entry (A : List (List Nat)) (T : List (List ℚ))
    (p : List ℚ) (m i j : Nat) (hA : A ≠ []) (hrow : ∀ r ∈ A, r.length = m)
    (hi : i < A.length) (hj : j < m) :
    (((calculate_actual_expense_matrix A T p).getD i []).getD j 0)
      = ((A.getD i []).getD j 0 : ℚ) * ((T.getD i []).getD j 0) * p.getD j 0 := by
  have hhead : (A.headD []).length = m := hrow _ (headD_mem A [] hA)
  unfold calculate_actual_expense_matrix
  rw [hhead]
  exact getD_range_matrix
    (fun i j => ((A.getD i []).getD j 0 : ℚ) * ((T.getD i []).getD j 0) * p.getD j 0)
    A.length m i j hi hj

/-- Entry formula for `update_execution_times_step2`. -/
theorem update_times_entry (A B : List (List ℚ)) (m i j : Nat) (hA : A ≠ [])
    (hrow : ∀ r ∈ A, r.length = m) (hi : i < A.length) (hj : j < m) :
    (((update_execution_times_step2 A B).getD i []).getD j 0)
      = (B.getD i []).getD j 0 + colSumQ A j / (A.length : ℚ) := by
  have hhead : (A.headD []).length = m := hrow _ (headD_mem A [] hA)
  unfold update_execution_times_step2
  rw [hhead]
  exact getD_range_matrix
    (fun i j => (B.getD i []).getD j 0 + colSumQ A j / (A.length : ℚ))
    A.length m i j hi hj

/-! ### Helper lemmas: the combination enumeration -/

/-- `combinations k l` has exactly `C(l.length, k)` members. -/
theorem combinations_length {α : Type} (l : List α) (k : Nat) :
    (combinations k l).length = Nat.choose l.length k := by
  induction l generalizing k with
  | nil => cases k <;> simp [combinations]
  | cons x xs ih =>
    cases k with
    | zero => simp [combinations]
    | succ k => simp [combinations, ih, Nat.choose_succ_succ]

/-- Members of `combinations k l` are subsequences of `l`. -/
theorem mem_combinations_sublist {α : Type} {l : List α} {k : Nat} {c : List α}
    (h : c ∈ combinations k l) : c.Sublist l := by
  induction l generalizing k c with
  | nil =>
    cases k with
    | zero => simp only [combinations, List.mem_singleton] at h; simp [h]
    | succ k => simp [combinations] at h
  | cons x xs ih =>
    cases k with
    | zero =>
      simp only [combinations, List.mem_singleton] at h
      simp [h]
    | succ k =>
      simp only [combinations, List.mem_append, List.mem_map] at h
      rcases h with ⟨a, ha, rfl⟩ | h
      · exact List.Sublist.cons₂ x (ih ha)
      · exact List.Sublist.cons x (ih h)

/-- Members of `combinations k l` have length `k`. -/
theorem mem_combinations_length {α : Type} {l : List α} {k : Nat} {c : List α}
    (h : c ∈ combinations k l) : c.length = k := by
  induction l generalizing k c with
  | nil =>
    cases k with
    | zero => simp only [combinations, List.mem_singleton] at h; simp [h]
    | succ k => simp [combinations] at h
  | cons x xs ih =>
    cases k with
    | zero =>
      simp only [combinations, List.mem_singleton] at h
      simp [h]
    | succ k =>
      simp only [combinations, List.mem_append, List.mem_map] at h
      rcases h with ⟨a, ha, rfl⟩ | h
      · simp [ih ha]
      · exact ih h

/-- Completeness: every length-`k` subsequence of `l` is enumerated. -/
theorem sublist_mem_combinations {α : Type} {s l : List α} (h : s.Sublist l) :
    s ∈ combinations s.length l := by
  induction h with
  | slnil => simp [combinations]
  | cons a h ih =>
    rename_i s2 t2
    cases s2 with
    | nil => simp [combinations]
    | cons b t =>
      simp only [List.length_cons, combinations, List.mem_append]
      exact Or.inr ih
  | cons₂ a h ih =>
    rename_i s t
    simp only [List.length_cons, combinations, List.mem_append, List.mem_map]
    exact Or.inl ⟨s, ih, rfl⟩

/-- Lexicographic order on `List Nat` is irreflexive. -/
theorem lex_irrefl_nat (l : List Nat) : ¬ List.Lex (· < ·) l l := by
  induction l with
  | nil => intro h; cases h
  | cons a t ih =>
    intro h
    cases h with
    | cons h => exact ih h
    | rel h => exact Nat.lt_irrefl a h

/-- On a strictly increasing base list, `combinations` enumerates in strict
lexicographic order over index lists — the `itertools.combinations` order. -/
theorem combinations_pairwise_lex (l : List Nat) (k : Nat)
    (h : l.Pairwise (· < ·)) :
    (combinations k l).Pairwise (List.Lex (· < ·)) := by
  induction l generalizing k with
  | nil => cases k <;> simp [combinations]
  | cons x xs ih =>
    have hx : ∀ y ∈ xs, x < y := (List.pairwise_cons.1 h).1
    have hxs : xs.Pairwise (· < ·) := (List.pairwise_cons.1 h).2
    cases k with
    | zero => simp [combinations]
    | succ k =>
      simp only [combinations]
      rw [List.pairwise_append]
      refine ⟨List.Pairwise.map _ (fun a b hab => List.Lex.cons hab) (ih k hxs),
        ih (k + 1) hxs, ?_⟩
      intro u hu v hv
      rcases List.mem_map.1 hu with ⟨a, _, rfl⟩
      have hvlen : v.length = k + 1 := mem_combinations_length hv
      have hvsub : v.Sublist xs := mem_combinations_sublist hv
      cases v with
      | nil => simp at hvlen
      | cons y v2 =>
        exact List.Lex.rel (hx y (hvsub.subset (List.mem_cons_self y v2)))

/-- On a strictly increasing base list the enumerated combinations are
pairwise distinct. -/
theorem combinations_nodup (l : List Nat) (k : Nat) (h : l.Pairwise (· < ·)) :
    (combinations k l).Nodup :=
  (combinations_pairwise_lex l k h).imp
    (fun hab heq => absurd (heq ▸ hab) (lex_irrefl_nat _))

/-! ### Helper lemmas: indicator vectors -/

/-- An indicator vector has length `m`. -/
theorem indicatorVector_length (m : Nat) (s : List Nat) :
    (indicatorVector m s).length = m := by
  simp [indicatorVector]

/-- Indicator vectors are 0/1-valued. -/
theorem indicatorVector_binary (m : Nat) (s : List Nat) :
    ∀ x ∈ indicatorVector m s, x = 0 ∨ x = 1 := by
  intro x hx
  rcases List.mem_map.1 hx with ⟨j, _, rfl⟩
  by_cases hj : j ∈ s <;> simp [hj]

/-- Entry `j < m` of an indicator vector. -/
theorem indicatorVector_getD (m : Nat) (s : List Nat) (j : Nat) (hj : j < m) :
    (indicatorVector m s).getD j 0 = if j ∈ s then 1 else 0 :=
  getD_range_map _ _ _ _ hj

/-- An indicator vector of a duplicate-free, in-range index list has exactly
`s.length` ones. -/
theorem indicatorVector_count (m : Nat) (s : List Nat) (hnd : s.Nodup)
    (hbound : ∀ x ∈ s, x < m) :
    (indicatorVector m s).count 1 = s.length := by
  have h1 : (indicatorVector m s).count 1
      = (List.range m).countP (fun j => decide (j ∈ s)) := by
    rw [List.count_eq_countP, indicatorVector, List.countP_map]
    refine List.countP_congr ?_
    intro j _
    by_cases hj : j ∈ s <;> simp [hj]
  rw [h1, List.countP_eq_length_filter]
  have hperm : List.Perm ((List.range m).filter (fun j => decide (j ∈ s))) s := by
    rw [List.perm_ext_iff_of_nodup ((List.nodup_range m).filter _) hnd]
    intro a
    simp only [List.mem_filter, List.mem_range, decide_eq_true_eq]
    exact ⟨fun h => h.2, fun h => ⟨hbound a h, h⟩⟩
  exact hperm.length_eq

/-- Indicator vectors determine their index sets on subsequences of
`range m`. -/
theorem indicatorVector_inj (m : Nat) (s t : List Nat)
    (hs : s.Sublist (List.range m)) (ht : t.Sublist (List.range m))
    (h : indicatorVector m s = indicatorVector m t) : s = t := by
  have hsnd : s.Nodup := hs.nodup (List.nodup_range m)
  have htnd : t.Nodup := ht.nodup (List.nodup_range m)
  have hssort : s.Pairwise (· < ·) :=
    List.Pairwise.sublist hs (List.pairwise_lt_range m)
  have htsort : t.Pairwise (· < ·) :=
    List.Pairwise.sublist ht (List.pairwise_lt_range m)
  have hmem : ∀ j, j ∈ s ↔ j ∈ t := by
    intro j
    by_cases hj : j < m
    · have := congrArg (fun v => v.getD j 0) h
      simp only [indicatorVector_getD m _ j hj] at this
      by_cases hjs : j ∈ s <;> by_cases hjt : j ∈ t <;>
        simp [hjs, hjt] at this ⊢
    · constructor
      · intro hjs
        exact absurd (List.mem_range.1 (hs.subset hjs)) hj
      · intro hjt
        exact absurd (List.mem_range.1 (ht.subset hjt)) hj
  haveI : IsAntisymm Nat (· < ·) :=
    ⟨fun a b h1 h2 => absurd h2 (Nat.lt_asymm h1)⟩
  exact List.eq_of_perm_of_sorted
    ((List.perm_ext_iff_of_nodup hsnd htnd).2 hmem) hssort htsort

/-! ### Helper lemmas: the optimizer's argmax fold -/

section OptimizerFold

variable (et p : List ℚ) (wt we dl bg : ℚ)

/-- One optimizer step never decreases the recorded best utility. -/
theorem optStep_snd_mono (st : Option (List Nat) × ℚ) (a : List Nat) :
    st.2 ≤ (optStep et p wt we dl bg st a).2 := by
  unfold optStep
  by_cases hc : check_constraints a et p dl bg
  · simp only [hc, if_true]
    by_cases hlt : st.2 < calculate_utility a et p wt we
    · simpa [hlt] using le_of_lt hlt
    · simp [hlt]
  · simp [hc]

/-- After one step on a feasible candidate, the recorded best utility is at
least that candidate's utility. -/
theorem optStep_snd_ge (st : Option (List Nat) × ℚ) (a : List Nat)
    (hc : check_constraints a et p dl bg = true) :
    calculate_utility a et p wt we ≤ (optStep et p wt we dl bg st a).2 := by
  unfold optStep
  simp only [hc, if_true]
  by_cases hlt : st.2 < calculate_utility a et p wt we
  · simp [hlt]
  · simpa [hlt] using not_lt.1 hlt

/-- The fold never decreases the recorded best utility. -/
theorem optFold_snd_mono (l : List (List Nat)) (st : Option (List Nat) × ℚ) :
    st.2 ≤ (l.foldl (optStep et p wt we dl bg) st).2 := by
  induction l generalizing st with
  | nil => simp
  | cons x t ih =>
    exact le_trans (optStep_snd_mono et p wt we dl bg st x)
      (ih (optStep et p wt we dl bg st x))

/-- The final recorded best utility bounds the utility of every feasible
candidate in the list. -/
theorem optFold_snd_bound (l : List (List Nat)) (st : Option (List Nat) × ℚ) :
    ∀ a ∈ l, check_constraints a et p dl bg = true →
      calculate_utility a et p wt we ≤ (l.foldl (optStep et p wt we dl bg) st).2 := by
  induction l generalizing st with
  | nil => intro a ha; simp at ha
  | cons x t ih =>
    intro a ha hc
    rcases List.mem_cons.1 ha with rfl | hat
    · exact le_trans (optStep_snd_ge et p wt we dl bg st a hc)
        (optFold_snd_mono et p wt we dl bg t _)
    · exact ih _ a hat hc

/-- A fold over candidates none of which records an improvement leaves the
state unchanged. -/
theorem optFold_no_improve (l : List (List Nat)) (st : Option (List Nat) × ℚ)
    (h : ∀ a ∈ l, check_constraints a et p dl bg = true →
      calculate_utility a et p wt we ≤ st.2) :
    l.foldl (optStep et p wt we dl bg) st = st := by
  induction l with
  | nil => rfl
  | cons x t ih =>
    have hx : optStep et p wt we dl bg st x = st := by
      unfold optStep
      by_cases hc : check_constraints x et p dl bg
      · have := h x (List.mem_cons_self x t) hc
        simp [hc, not_lt.2 this]
      · simp [hc]
    rw [List.foldl_cons, hx]
    exact ih (fun a ha hc => h a (List.mem_cons_of_mem x ha) hc)

/-- Characterisation of the optimizer fold when some candidate is feasible
with utility strictly above the running best: the fold returns the first
feasible candidate attaining the final (maximal) recorded utility. -/
theorem optFold_first (l : List (List Nat)) (st : Option (List Nat) × ℚ)
    (h : ∃ a ∈ l, check_constraints a et p dl bg = true ∧
      st.2 < calculate_utility a et p wt we) :
    ∃ a, l.foldl (optStep et p wt we dl bg) st = (some a, calculate_utility a et p wt we) ∧
      check_constraints a et p dl bg = true ∧
      st.2 < calculate_utility a et p wt we ∧
      l.find? (fun b => check_constraints b et p dl bg &&
        decide (calculate_utility b et p wt we = calculate_utility a et p wt we))
        = some a := by
  induction l generalizing st with
  | nil => simp at h
  | cons x t ih =>
    by_cases hx : check_constraints x et p dl bg = true ∧
        st.2 < calculate_utility x et p wt we
    · have hstep : optStep et p wt we dl bg st x
          = (some x, calculate_utility x et p wt we) := by
        unfold optStep
        simp [hx.1, hx.2]
      by_cases himp : ∃ y ∈ t, check_constraints y et p dl bg = true ∧
          calculate_utility x et p wt we < calculate_utility y et p wt we
      · obtain ⟨a, hfold, hfeas, hgt, hfind⟩ :=
          ih (some x, calculate_utility x et p wt we) (by simpa using himp)
        refine ⟨a, by rw [List.foldl_cons, hstep]; exact hfold, hfeas, ?_, ?_⟩
        · exact lt_trans hx.2 hgt
        · rw [List.find?_cons_of_neg, hfind]
          simp only [Bool.and_eq_true, decide_eq_true_eq, not_and]
          intro _
          exact ne_of_lt hgt
      · push_neg at himp
        have hfix : t.foldl (optStep et p wt we dl bg)
            (some x, calculate_utility x et p wt we)
            = (some x, calculate_utility x et p wt we) :=
          optFold_no_improve et p wt we dl bg t _ (fun a ha hc => himp a ha hc)
        refine ⟨x, by rw [List.foldl_cons, hstep]; exact hfix, hx.1, hx.2, ?_⟩
        exact List.find?_cons_of_pos _ (by simp [hx.1])
    · have hstep : optStep et p wt we dl bg st x = st := by
        unfold optStep
        by_cases hc : check_constraints x et p dl bg
        · have hnlt : ¬ st.2 < calculate_utility x et p wt we := fun hlt =>
            hx ⟨hc, hlt⟩
          simp [hc, hnlt]
        · simp [hc]
      have hwit : ∃ a ∈ t, check_constraints a et p dl bg = true ∧
          st.2 < calculate_utility a et p wt we := by
        obtain ⟨a, ha, hfeas, hlt⟩ := h
        rcases List.mem_cons.1 ha with rfl | hat
        · exact absurd ⟨hfeas, hlt⟩ hx
        · exact ⟨a, hat, hfeas, hlt⟩
      obtain ⟨a, hfold, hfeas, hgt, hfind⟩ := ih st hwit
      refine ⟨a, by rw [List.foldl_cons, hstep]; exact hfold, hfeas, hgt, ?_⟩
      rw [List.find?_cons_of_neg, hfind]
      simp only [Bool.and_eq_true, decide_eq_true_eq, not_and]
      intro hc
      have hle : calculate_utility x et p wt we ≤ st.2 := by
        by_contra hlt
        exact hx ⟨hc, not_le.1 hlt⟩
      exact ne_of_lt (lt_of_le_of_lt hle hgt)

end OptimizerFold

/-! ### Claim theorems -/

/-- C3: for a well-shaped binary allocation matrix, the actual time matrix
satisfies `time[i][j] = (number of tasks with a 1 in column j) * base[i][j]`
when task `i` has a 1 at resource `j`, and `0` otherwise. -/
theorem claim_C3_actual_time_entry (A : List (List Nat)) (T : List (List ℚ))
    (m i j : Nat) (hA : A ≠ []) (hrow : ∀ r ∈ A, r.length = m)
    (hbin : ∀ r ∈ A, ∀ x ∈ r, x = 0 ∨ x = 1)
    (hi : i < A.length) (hj : j < m) :
    (((calculate_actual_execution_matrix A T).getD i []).getD j 0)
      = if (A.getD i []).getD j 0 = 1 then
          ((A.countP (fun r => r.getD j 0 == 1) : Nat) : ℚ) * ((T.getD i []).getD j 0)
        else 0 := by
  rw [actual_execution_entry A T m i j hA hrow hi hj,
    colSum_eq_count A j hbin m hrow hj]

/-- Witness for C3 at a concrete input: two tasks share resource 0, so the
allocated entry is `2 * base`. -/
theorem claim_C3_witness :
    (((calculate_actual_execution_matrix [[1,0],[1,1]] [[2,3],[4,5]]).getD 0 []).getD 0 0)
      = if (([[1,0],[1,1]] : List (List Nat)).getD 0 []).getD 0 0 = 1 then
          ((([[1,0],[1,1]] : List (List Nat)).countP (fun r => r.getD 0 0 == 1) : Nat) : ℚ)
            * ((([[2,3],[4,5]] : List (List ℚ)).getD 0 []).getD 0 0)
        else 0 :=
  claim_C3_actual_time_entry [[1,0],[1,1]] [[2,3],[4,5]] 2 0 0 (by decide)
    (by decide) (by decide) (by decide) (by decide)

/-- C4: a contention-only change (same row `i`, other rows arbitrary) leaves
the actual expense entry `[i][j]` unchanged, while the actual time entry of an
allocated task equals `contention * base[i][j]` in both matrices — it scales
linearly with the contention count of column `j`. -/
theorem claim_C4_contention_noninterference (A A2 : List (List Nat))
    (T : List (List ℚ)) (p : List ℚ) (m i j : Nat)
    (hA : A ≠ []) (hA2 : A2 ≠ [])
    (hrow : ∀ r ∈ A, r.length = m) (hrow2 : ∀ r ∈ A2, r.length = m)
    (hi : i < A.length) (hi2 : i < A2.length) (hj : j < m)
    (hsame : A.getD i [] = A2.getD i []) :
    ((((calculate_actual_expense_matrix A T p).getD i []).getD j 0)
      = (((calculate_actual_expense_matrix A2 T p).getD i []).getD j 0))
    ∧ ((A.getD i []).getD j 0 = 1 →
        (((calculate_actual_execution_matrix A T).getD i []).getD j 0)
          = (colSum A j : ℚ) * ((T.getD i []).getD j 0)
        ∧ (((calculate_actual_execution_matrix A2 T).getD i []).getD j 0)
          = (colSum A2 j : ℚ) * ((T.getD i []).getD j 0)) := by
  constructor
  · rw [actual_expense_entry A T p m i j hA hrow hi hj,
      actual_expense_entry A2 T p m i j hA2 hrow2 hi2 hj, hsame]
  · intro halloc
    constructor
    · rw [actual_execution_entry A T m i j hA hrow hi hj, if_pos halloc]
    · rw [actual_execution_entry A2 T m i j hA2 hrow2 hi2 hj,
        if_pos (hsame ▸ halloc)]

/-- Witness for C4 at a concrete input: doubling contention in the other row
leaves the expense entry alone and doubles the allocated time entry. -/
theorem claim_C4_witness :
    ((((calculate_actual_expense_matrix [[1],[0]] [[3],[3]] [2]).getD 0 []).getD 0 0)
      = (((calculate_actual_expense_matrix [[1],[1]] [[3],[3]] [2]).getD 0 []).getD 0 0))
    ∧ ((([[1],[0]] : List (List Nat)).getD 0 []).getD 0 0 = 1 →
        (((calculate_actual_execution_matrix [[1],[0]] [[3],[3]]).getD 0 []).getD 0 0)
          = (colSum [[1],[0]] 0 : ℚ) * ((([[3],[3]] : List (List ℚ)).getD 0 []).getD 0 0)
        ∧ (((calculate_actual_execution_matrix [[1],[1]] [[3],[3]]).getD 0 []).getD 0 0)
          = (colSum [[1],[1]] 0 : ℚ) * ((([[3],[3]] : List (List ℚ)).getD 0 []).getD 0 0)) :=
  claim_C4_contention_noninterference [[1],[0]] [[1],[1]] [[3],[3]] [2] 1 0 0
    (by decide) (by decide) (by decide) (by decide) (by decide) (by decide)
    (by decide) (by decide)

/-- C9 counterexample: with nonnegative weights `wt = 1, we = 0`, raising
`max(time_vector)` from `0` to `1` (expense sum fixed at `0`) moves the
utility from `0` (zero-denominator case) up to `1`, so `calculate_utility`
is not non-increasing in `max(time_vector)` across the zero-denominator
boundary. -/
theorem claim_C9_counterexample :
    calculate_utility [1] [0] [0] 1 0 = 0
    ∧ calculate_utility [1] [1] [0] 1 0 = 1
    ∧ maxD (calculate_execution_time_vector [1] [0]) = 0
    ∧ maxD (calculate_execution_time_vector [1] [1]) = 1
    ∧ (calculate_expense_vector [1] [0] [0]).sum
        = (calculate_expense_vector [1] [1] [0]).sum
    ∧ ¬(calculate_utility [1] [1] [0] 1 0 ≤ calculate_utility [1] [0] [0] 1 0) := by
  with_unfolding_all decide

/-- C9 amended: `calculate_utility` is the aggregate function `utilityOfCost`
applied to `max(time_vector)` and `sum(expense_vector)`, and with nonnegative
weights that aggregate function is non-increasing in both aggregates wherever
the smaller-input denominator is strictly positive; monotonicity fails only
across the zero-denominator boundary, where the utility is defined as `0`. -/
theorem claim_C9_monotone_utility :
    (∀ (a : List Nat) (et pr : List ℚ) (wt we : ℚ),
      calculate_utility a et pr wt we
        = utilityOfCost wt we (maxD (calculate_execution_time_vector a et))
            ((calculate_expense_vector a et pr).sum))
    ∧ (∀ wt we M1 M2 E1 E2 : ℚ, 0 ≤ wt → 0 ≤ we →
        0 < wt * M1 + we * E1 → M1 ≤ M2 → E1 ≤ E2 →
        utilityOfCost wt we M2 E2 ≤ utilityOfCost wt we M1 E1) := by
  constructor
  · intro a et pr wt we
    rfl
  · intro wt we M1 M2 E1 E2 hwt hwe hpos hM hE
    have hle : wt * M1 + we * E1 ≤ wt * M2 + we * E2 :=
      add_le_add (mul_le_mul_of_nonneg_left hM hwt)
        (mul_le_mul_of_nonneg_left hE hwe)
    unfold utilityOfCost
    rw [if_neg (ne_of_gt hpos), if_neg (ne_of_gt (lt_of_lt_of_le hpos hle))]
    exact one_div_le_one_div_of_le hpos hle

/-- Witness for C9: the monotonicity conjunct applied at
`wt = we = 1, M1 = E1 = E2 = 1, M2 = 2`, and the bridge conjunct at a
concrete call. -/
theorem claim_C9_witness :
    utilityOfCost 1 1 2 1 ≤ utilityOfCost 1 1 1 1
    ∧ calculate_utility [1] [2] [3] 1 1
        = utilityOfCost 1 1 (maxD (calculate_execution_time_vector [1] [2]))
            ((calculate_expense_vector [1] [2] [3]).sum) :=
  ⟨claim_C9_monotone_utility.2 1 1 1 2 1 1 (by with_unfolding_all decide)
      (by with_unfolding_all decide) (by with_unfolding_all decide)
      (by with_unfolding_all decide) (by with_unfolding_all decide),
    claim_C9_monotone_utility.1 [1] [2] [3] 1 1⟩

/-- C10: `calculate_actual_utility` does not depend on its
`allocation_vector` argument — the parameter is accepted and ignored, as in
the source. -/
theorem claim_C10_actual_utility_ignores_allocation
    (a1 a2 : List Nat) (tv ev : List ℚ) (wt we : ℚ) :
    calculate_actual_utility a1 tv ev wt we
      = calculate_actual_utility a2 tv ev wt we := rfl

/-- C5: for `1 ≤ k ≤ m`, `generate_valid_allocations k m` succeeds and
returns exactly `C(m, k)` pairwise distinct binary vectors, each of length `m`
with exactly `k` ones, one for every `k`-subset of `range m` (completeness),
enumerated in the fixed `itertools` order, which is strictly lexicographic
over the underlying index subsets. -/
theorem claim_C5_generator_enumeration (k m : Nat) (hk : 1 ≤ k) (hkm : k ≤ m) :
    ∃ L, generate_valid_allocations k m = .ok L
    ∧ L = (combinations k (List.range m)).map (indicatorVector m)
    ∧ L.length = Nat.choose m k
    ∧ L.Nodup
    ∧ (∀ v ∈ L, v.length = m ∧ v.count 1 = k ∧ ∀ x ∈ v, x = 0 ∨ x = 1)
    ∧ (∀ s : List Nat, s.Sublist (List.range m) → s.length = k →
        indicatorVector m s ∈ L)
    ∧ (combinations k (List.range m)).Pairwise (List.Lex (· < ·)) := by
  refine ⟨(combinations k (List.range m)).map (indicatorVector m), ?_, rfl,
    ?_, ?_, ?_, ?_, ?_⟩
  · unfold generate_valid_allocations
    rw [if_neg (by omega)]
  · rw [List.length_map, combinations_length, List.length_range]
  · refine List.Nodup.map_on ?_
      (combinations_nodup (List.range m) k (List.pairwise_lt_range m))
    intro s hs t ht heq
    exact indicatorVector_inj m s t (mem_combinations_sublist hs)
      (mem_combinations_sublist ht) heq
  · intro v hv
    rcases List.mem_map.1 hv with ⟨s, hs, rfl⟩
    have hsub := mem_combinations_sublist hs
    refine ⟨indicatorVector_length m s, ?_, indicatorVector_binary m s⟩
    rw [indicatorVector_count m s (hsub.nodup (List.nodup_range m))
      (fun x hx => List.mem_range.1 (hsub.subset hx))]
    exact mem_combinations_length hs
  · intro s hsub hlen
    exact List.mem_map_of_mem (indicatorVector m) (hlen ▸ sublist_mem_combinations hsub)
  · exact combinations_pairwise_lex (List.range m) k (List.pairwise_lt_range m)

/-- Witness for C5 at `k = 2, m = 3`: the generator succeeds and yields
`C(3, 2) = 3` duplicate-free vectors. -/
theorem claim_C5_witness :
    generate_valid_allocations 2 3
      = .ok ((combinations 2 (List.range 3)).map (indicatorVector 3))
    ∧ ((combinations 2 (List.range 3)).map (indicatorVector 3)).length
        = Nat.choose 3 2
    ∧ ((combinations 2 (List.range 3)).map (indicatorVector 3)).Nodup := by
  obtain ⟨L, h1, rfl, h3, h4, -, -, -⟩ :=
    claim_C5_generator_enumeration 2 3 (by decide) (by decide)
  exact ⟨h1, h3, h4⟩

/-- Successful generation forces `k ≤ m` and fixes the returned list. -/
theorem generate_ok_shape (k m : Nat) (allocs : List (List Nat))
    (hgen : generate_valid_allocations k m = .ok allocs) :
    k ≤ m ∧ allocs = (combinations k (List.range m)).map (indicatorVector m) := by
  unfold generate_valid_allocations at hgen
  by_cases h : k > m
  · rw [if_pos h] at hgen
    exact absurd hgen (by simp)
  · rw [if_neg h] at hgen
    exact ⟨not_lt.1 h, (Except.ok.inj hgen).symm⟩

/-- C1 counterexample: with `k = 1, m = 2`, execution times `[5, 0]`, prices
`[1, 1]`, weights `1/2, 1/2`, deadline `3`, budget `100`, the candidate
`[0, 1]` is feasible (its utility is `0` because the cost denominator is `0`)
while `[1, 0]` is not; yet `optimize_step1` returns the infeasible `[1, 0]`
with utility `1/5`, because the loop seeds `best_utility = 0` and a feasible
candidate of utility `0` is never recorded, triggering the first-candidate
fallback.  This refutes the claim that the optimizer always returns the
feasible candidate of greatest utility. -/
theorem claim_C1_counterexample :
    optimize_step1 1 2 [5, 0] [1, 1] (1/2) (1/2) 3 100 = .ok ([1, 0], 1/5)
    ∧ check_constraints [1, 0] [5, 0] [1, 1] 3 100 = false
    ∧ check_constraints [0, 1] [5, 0] [1, 1] 3 100 = true
    ∧ generate_valid_allocations 1 2 = .ok [[1, 0], [0, 1]] :=
  ⟨by with_unfolding_all rfl, by with_unfolding_all decide,
    by with_unfolding_all decide, by with_unfolding_all rfl⟩

/-- C1 amended: whenever some generated candidate is feasible with strictly
positive utility, `optimize_step1` returns a feasible candidate whose utility
is greatest among all feasible candidates, and on ties it is the first such
candidate in generator order (witnessed by `List.find?` over the generated
list). -/
theorem claim_C1_optimizer_first_max (k m : Nat) (et p : List ℚ)
    (wt we dl bg : ℚ) (allocs : List (List Nat))
    (hgen : generate_valid_allocations k m = .ok allocs)
    (hpos : ∃ a ∈ allocs, check_constraints a et p dl bg = true ∧
      0 < calculate_utility a et p wt we) :
    ∃ a, optimize_step1 k m et p wt we dl bg
        = .ok (a, calculate_utility a et p wt we)
    ∧ check_constraints a et p dl bg = true
    ∧ (∀ b ∈ allocs, check_constraints b et p dl bg = true →
        calculate_utility b et p wt we ≤ calculate_utility a et p wt we)
    ∧ allocs.find? (fun b => check_constraints b et p dl bg &&
        decide (calculate_utility b et p wt we = calculate_utility a et p wt we))
        = some a := by
  obtain ⟨a, hfold, hfeas, _, hfind⟩ :=
    optFold_first et p wt we dl bg allocs (none, 0) hpos
  refine ⟨a, ?_, hfeas, ?_, hfind⟩
  · simp only [optimize_step1, hgen, hfold]
  · intro b hb hc
    have hbd := optFold_snd_bound et p wt we dl bg allocs (none, 0) b hb hc
    rw [hfold] at hbd
    exact hbd

/-- Witness for C1 at `k = 1, m = 2`, times `[2, 1]`, prices `[1, 1]`,
weights `1/2, 1/2`: both candidates are feasible with positive utility and
the optimizer picks the utility-maximising one. -/
theorem claim_C1_witness :
    ∃ a, optimize_step1 1 2 [2, 1] [1, 1] (1/2) (1/2) 10 10
        = .ok (a, calculate_utility a [2, 1] [1, 1] (1/2) (1/2))
    ∧ check_constraints a [2, 1] [1, 1] 10 10 = true
    ∧ (∀ b ∈ [[1, 0], [0, 1]], check_constraints b [2, 1] [1, 1] 10 10 = true →
        calculate_utility b [2, 1] [1, 1] (1/2) (1/2)
          ≤ calculate_utility a [2, 1] [1, 1] (1/2) (1/2))
    ∧ ([[1, 0], [0, 1]] : List (List Nat)).find?
        (fun b => check_constraints b [2, 1] [1, 1] 10 10 &&
          decide (calculate_utility b [2, 1] [1, 1] (1/2) (1/2)
            = calculate_utility a [2, 1] [1, 1] (1/2) (1/2))) = some a :=
  claim_C1_optimizer_first_max 1 2 [2, 1] [1, 1] (1/2) (1/2) 10 10
    [[1, 0], [0, 1]] (by with_unfolding_all rfl)
    ⟨[1, 0], by with_unfolding_all decide⟩

/-- C8: when every generated candidate violates the constraints, the
optimizer does not fail — it returns the generator's first candidate together
with that candidate's utility computed from the supplied execution times. -/
theorem claim_C8_infeasible_fallback (k m : Nat) (et p : List ℚ)
    (wt we dl bg : ℚ) (allocs : List (List Nat))
    (hgen : generate_valid_allocations k m = .ok allocs)
    (hinf : ∀ b ∈ allocs, check_constraints b et p dl bg = false) :
    optimize_step1 k m et p wt we dl bg
      = .ok (allocs.headD [], calculate_utility (allocs.headD []) et p wt we) := by
  obtain ⟨hkm, hsh⟩ := generate_ok_shape k m allocs hgen
  have hne : allocs ≠ [] := by
    intro h0
    have hlen : allocs.length = Nat.choose m k := by
      rw [hsh, List.length_map, combinations_length, List.length_range]
    rw [h0] at hlen
    exact absurd hlen.symm (Nat.pos_iff_ne_zero.1 (Nat.choose_pos hkm))
  obtain ⟨a, t, rfl⟩ := List.exists_cons_of_ne_nil hne
  have hfold := optFold_no_improve et p wt we dl bg (a :: t) (none, 0)
    (fun b hb hc => by rw [hinf b hb] at hc; exact absurd hc Bool.false_ne_true)
  simp only [optimize_step1, hgen, hfold, List.headD]

/-- Witness for C8 at `k = m = 1`, time `[5]`, price `[1]`, deadline and
budget `1`: the sole candidate `[1]` is infeasible, and the optimizer still
returns it with its utility. -/
theorem claim_C8_witness :
    optimize_step1 1 1 [5] [1] (1/2) (1/2) 1 1
      = .ok (([[1]] : List (List Nat)).headD [],
          calculate_utility (([[1]] : List (List Nat)).headD []) [5] [1] (1/2) (1/2)) :=
  claim_C8_infeasible_fallback 1 1 [5] [1] (1/2) (1/2) 1 1 [[1]]
    (by with_unfolding_all rfl) (by with_unfolding_all decide)

/-! ### Helper lemmas: the coordinator's submission validation -/

/-- A successful association-list lookup witnesses key membership. -/
theorem lookup_some_mem {β : Type} (uid : String) (subs : List (String × β))
    (v : β) (h : subs.lookup uid = some v) : uid ∈ subs.map Prod.fst := by
  induction subs with
  | nil => simp [List.lookup] at h
  | cons x t ih =>
    obtain ⟨k, w⟩ := x
    by_cases hk : k == uid
    · exact List.mem_cons.2 (Or.inl (eq_of_beq hk).symm)
    · have hne : k ≠ uid := fun he => hk (by simp [he])
      have hkf : (uid == k) = false :=
        beq_eq_false_iff_ne.2 (fun he => hne he.symm)
      rw [List.lookup] at h
      simp only [hkf] at h
      exact List.mem_cons_of_mem _ (ih h)

/-- Exhaustive behaviour of the matrix-building loop over the three known
task identities: either it raises on the first missing known task, or all
three lookups succeed and it returns their rows in canonical order. -/
theorem build_cases (subs : List (String × List Nat)) :
    (∃ uid ∈ USER_IDS, subs.lookup uid = none ∧
        buildAllocationMatrix USER_IDS subs = .error (.missingAllocation uid))
    ∨ (∃ v1 v2 v3, subs.lookup "S1" = some v1 ∧ subs.lookup "S2" = some v2 ∧
        subs.lookup "S3" = some v3 ∧
        buildAllocationMatrix USER_IDS subs = .ok [v1, v2, v3]) := by
  cases h1 : subs.lookup "S1" with
  | none =>
    exact Or.inl ⟨"S1", by simp [USER_IDS], h1,
      by simp [USER_IDS, buildAllocationMatrix, h1]⟩
  | some v1 =>
    cases h2 : subs.lookup "S2" with
    | none =>
      exact Or.inl ⟨"S2", by simp [USER_IDS], h2,
        by simp [USER_IDS, buildAllocationMatrix, h1, h2]⟩
    | some v2 =>
      cases h3 : subs.lookup "S3" with
      | none =>
        exact Or.inl ⟨"S3", by simp [USER_IDS], h3,
          by simp [USER_IDS, buildAllocationMatrix, h1, h2, h3]⟩
      | some v3 =>
        refine Or.inr ⟨v1, v2, v3, rfl, rfl, rfl, ?_⟩
        simp [USER_IDS, buildAllocationMatrix, h1, h2, h3]

/-- A submission-count mismatch is reported immediately. -/
theorem process_eq_count_error (mgr : ResourceManager)
    (subs : List (String × List Nat))
    (h : subs.length ≠ mgr.user_ids.length) :
    mgr.process_allocations subs
      = .error (.countMismatch mgr.user_ids.length subs.length) := by
  unfold ResourceManager.process_allocations
  rw [if_pos h]

/-- With matching counts, a failure of the building loop is the call's
result. -/
theorem process_eq_build_error (mgr : ResourceManager)
    (subs : List (String × List Nat)) (e : SubmissionError)
    (hlen : subs.length = mgr.user_ids.length)
    (hb : buildAllocationMatrix mgr.user_ids subs = .error e) :
    mgr.process_allocations subs = .error e := by
  unfold ResourceManager.process_allocations
  rw [if_neg (fun hne => hne hlen), hb]

/-- Inversion of a successful `process_allocations` call: the counts matched,
the building loop succeeded, and the result's matrices are computed from the
built allocation matrix and the manager's own base times and prices. -/
theorem process_ok_inv (mgr : ResourceManager)
    (subs : List (String × List Nat)) (r : ProcessResult)
    (h : mgr.process_allocations subs = .ok r) :
    subs.length = mgr.user_ids.length
    ∧ ∃ A, buildAllocationMatrix mgr.user_ids subs = .ok A
      ∧ r.allocation_matrix = A
      ∧ r.time_matrix = calculate_actual_execution_matrix A mgr.base_execution_times
      ∧ r.expense_matrix
          = calculate_actual_expense_matrix A mgr.base_execution_times
              mgr.resource_prices := by
  unfold ResourceManager.process_allocations at h
  by_cases hlen : subs.length ≠ mgr.user_ids.length
  · rw [if_pos hlen] at h
    exact absurd h (by simp)
  · rw [if_neg hlen] at h
    cases hb : buildAllocationMatrix mgr.user_ids subs with
    | error e =>
      rw [hb] at h
      exact absurd h (by simp)
    | ok A =>
      rw [hb] at h
      have hr := Except.ok.inj h
      exact ⟨not_ne_iff.1 hlen, A, rfl, by rw [← hr], by rw [← hr], by rw [← hr]⟩

/-- C7 counterexample: the submission map
`{S1 ↦ ..., S2 ↦ ..., S9 ↦ ...}` contains the unknown identity `S9`, yet
`process_allocations` raises the missing-known-task error
(`"Missing allocation for S3"`), which is the incomplete-submission error and
not any count/unexpected-submission error.  This refutes the claim that an
unknown task identity always yields an `UnexpectedSubmission` error. -/
theorem claim_C7_counterexample :
    ResourceManager.init.process_allocations
        [("S1", [1,0,0,0,0]), ("S2", [0,1,0,0,0]), ("S9", [0,0,1,0,0])]
      = .error (.missingAllocation "S3")
    ∧ ("S9", [0,0,1,0,0])
        ∈ [("S1", [1,0,0,0,0]), ("S2", [0,1,0,0,0]), ("S9", [0,0,1,0,0])]
    ∧ "S9" ∉ USER_IDS
    ∧ ∀ e g : Nat, SubmissionError.missingAllocation "S3"
        ≠ .countMismatch e g :=
  ⟨by with_unfolding_all rfl, by decide, by decide,
    fun e g h => SubmissionError.noConfusion h⟩

/-- C7 amended: a missing known task is always fatal, and when the counts
agree it is reported as the missing-allocation (incomplete-submission) error
naming a missing known task — even if an unknown identity is also present;
an unknown identity with all known tasks present forces a surplus and is
reported as the count-mismatch error; and a successful call requires the
submitted identities to be exactly the known tasks, so no arity mismatch is
ever partially processed. -/
theorem claim_C7_arity_mismatch_fatal (subs : List (String × List Nat))
    (hnd : (subs.map Prod.fst).Nodup) :
    ((∃ uid ∈ USER_IDS, subs.lookup uid = none) →
        (∀ r, ResourceManager.init.process_allocations subs ≠ .ok r)
        ∧ (subs.length = USER_IDS.length →
            ∃ uid ∈ USER_IDS, subs.lookup uid = none ∧
              ResourceManager.init.process_allocations subs
                = .error (.missingAllocation uid)))
    ∧ ((∀ uid ∈ USER_IDS, ∃ v, subs.lookup uid = some v) →
        (∃ x ∈ subs, x.1 ∉ USER_IDS) →
        ResourceManager.init.process_allocations subs
          = .error (.countMismatch USER_IDS.length subs.length)
          ∧ USER_IDS.length < subs.length)
    ∧ (∀ r, ResourceManager.init.process_allocations subs = .ok r →
        (∀ uid ∈ USER_IDS, ∃ v, subs.lookup uid = some v)
        ∧ (∀ x ∈ subs, x.1 ∈ USER_IDS)) := by
  have hB : (∀ uid ∈ USER_IDS, ∃ v, subs.lookup uid = some v) →
      (∃ x ∈ subs, x.1 ∉ USER_IDS) →
      ResourceManager.init.process_allocations subs
        = .error (.countMismatch USER_IDS.length subs.length)
      ∧ USER_IDS.length < subs.length := by
    intro hall ⟨x, hx, hxnot⟩
    have hkeys : ∀ uid ∈ USER_IDS, uid ∈ subs.map Prod.fst := by
      intro uid huid
      obtain ⟨v, hv⟩ := hall uid huid
      exact lookup_some_mem uid subs v hv
    have hxkey : x.1 ∈ subs.map Prod.fst := List.mem_map_of_mem Prod.fst hx
    have hsubset : insert x.1 USER_IDS.toFinset ⊆ (subs.map Prod.fst).toFinset := by
      intro a ha
      rcases Finset.mem_insert.1 ha with rfl | ha
      · exact List.mem_toFinset.2 hxkey
      · exact List.mem_toFinset.2 (hkeys a (List.mem_toFinset.1 ha))
    have hcard4 : 4 ≤ (subs.map Prod.fst).toFinset.card := by
      have h1 : (insert x.1 USER_IDS.toFinset).card = 4 := by
        rw [Finset.card_insert_of_not_mem (fun hmem =>
          hxnot (List.mem_toFinset.1 hmem))]
        decide
      rw [← h1]
      exact Finset.card_le_card hsubset
    have hlen : 4 ≤ subs.length := by
      have := List.toFinset_card_of_nodup hnd
      rw [this, List.length_map] at hcard4
      exact hcard4
    have hne : subs.length ≠ USER_IDS.length := by
      intro heq
      rw [heq] at hlen
      exact absurd hlen (by decide)
    exact ⟨process_eq_count_error ResourceManager.init subs hne,
      lt_of_lt_of_le (by decide) hlen⟩
  refine ⟨?_, hB, ?_⟩
  · intro hmiss
    have herr : ∀ hlen : subs.length = USER_IDS.length,
        ∃ uid ∈ USER_IDS, subs.lookup uid = none ∧
          ResourceManager.init.process_allocations subs
            = .error (.missingAllocation uid) := by
      intro hlen
      rcases build_cases subs with ⟨uid, huid, hnone, hbuild⟩ | ⟨v1, v2, v3, h1, h2, h3, -⟩
      · exact ⟨uid, huid, hnone,
          process_eq_build_error ResourceManager.init subs _ hlen hbuild⟩
      · obtain ⟨uid, huid, hnone⟩ := hmiss
        simp only [USER_IDS, List.mem_cons, List.not_mem_nil, or_false] at huid
        rcases huid with rfl | rfl | rfl
        · rw [h1] at hnone; exact absurd hnone (by simp)
        · rw [h2] at hnone; exact absurd hnone (by simp)
        · rw [h3] at hnone; exact absurd hnone (by simp)
    constructor
    · intro r hok
      by_cases hlen : subs.length = USER_IDS.length
      · obtain ⟨uid2, -, -, heq⟩ := herr hlen
        rw [heq] at hok
        exact absurd hok (by simp)
      · rw [process_eq_count_error ResourceManager.init subs hlen] at hok
        exact absurd hok (by simp)
    · exact herr
  · intro r hok
    obtain ⟨hlen, A, hb, -⟩ := process_ok_inv ResourceManager.init subs r hok
    have hbU : buildAllocationMatrix USER_IDS subs = .ok A := hb
    have hall : ∀ uid ∈ USER_IDS, ∃ v, subs.lookup uid = some v := by
      rcases build_cases subs with ⟨uid, -, -, hbuild⟩ | ⟨v1, v2, v3, h1, h2, h3, -⟩
      · rw [hbuild] at hbU
        exact absurd hbU (by simp)
      · intro uid huid
        simp only [USER_IDS, List.mem_cons, List.not_mem_nil, or_false] at huid
        rcases huid with rfl | rfl | rfl
        · exact ⟨v1, h1⟩
        · exact ⟨v2, h2⟩
        · exact ⟨v3, h3⟩
    refine ⟨hall, ?_⟩
    intro x hx
    by_contra hxnot
    obtain ⟨heq, -⟩ := hB hall ⟨x, hx, hxnot⟩
    rw [heq] at hok
    exact absurd hok (by simp)

/-- Witness for C7: four submissions including the unknown identity `S4`
with all known tasks present yield the count-mismatch error. -/
theorem claim_C7_witness :
    ResourceManager.init.process_allocations
        [("S1", [1,0,0,0,0]), ("S2", [0,1,0,0,0]), ("S3", [0,0,1,0,0]),
          ("S4", [0,0,0,1,0])]
      = .error (.countMismatch USER_IDS.length 4)
    ∧ USER_IDS.length < 4 :=
  (claim_C7_arity_mismatch_fatal
      [("S1", [1,0,0,0,0]), ("S2", [0,1,0,0,0]), ("S3", [0,0,1,0,0]),
        ("S4", [0,0,0,1,0])] (by decide)).2.1
    (fun uid huid => by
      simp only [USER_IDS, List.mem_cons, List.not_mem_nil, or_false] at huid
      rcases huid with rfl | rfl | rfl
      · exact ⟨[1,0,0,0,0], by with_unfolding_all rfl⟩
      · exact ⟨[0,1,0,0,0], by with_unfolding_all rfl⟩
      · exact ⟨[0,0,1,0,0], by with_unfolding_all rfl⟩)
    ⟨("S4", [0,0,0,1,0]), by decide, by decide⟩

/-- C2: the round-2 update formula and settlement inputs.  First conjunct:
`update_execution_times_step2` returns entrywise
`base[i][j] + (Σ_k actual[k][j]) / n`, the base time plus the mean of column
`j` of the round-1 actual time matrix.  Second conjunct: the manager method
`calculate_step2_execution_times` computes exactly that update from its own
base matrix.  Third conjunct: every successful `process_allocations` call on
the initialised manager — in round 2 exactly as in round 1 — computes its
actual time and expense matrices from the original `EXECUTION_TIME_MATRIX`
and `RESOURCE_PRICES`, never from the updated round-2 optimizer-input
times. -/
theorem claim_C2_round2_update_and_settlement :
    (∀ (A B : List (List ℚ)) (m i j : Nat), A ≠ [] → (∀ r ∈ A, r.length = m) →
      i < A.length → j < m →
      ((update_execution_times_step2 A B).getD i []).getD j 0
        = (B.getD i []).getD j 0 + colSumQ A j / (A.length : ℚ))
    ∧ (∀ (mgr : ResourceManager) (A : List (List ℚ)),
        mgr.calculate_step2_execution_times A
          = update_execution_times_step2 A mgr.base_execution_times)
    ∧ (∀ (subs : List (String × List Nat)) (r : ProcessResult),
        ResourceManager.init.process_allocations subs = .ok r →
        r.time_matrix
          = calculate_actual_execution_matrix r.allocation_matrix
              EXECUTION_TIME_MATRIX
        ∧ r.expense_matrix
          = calculate_actual_expense_matrix r.allocation_matrix
              EXECUTION_TIME_MATRIX RESOURCE_PRICES) := by
  refine ⟨?_, ?_, ?_⟩
  · intro A B m i j hA hrow hi hj
    exact update_times_entry A B m i j hA hrow hi hj
  · intro mgr A
    rfl
  · intro subs r h
    obtain ⟨-, A, -, hAm, hT, hE⟩ := process_ok_inv ResourceManager.init subs r h
    exact ⟨by rw [hT, hAm]; rfl, by rw [hE, hAm]; rfl⟩

/-- Witness for C2: the update entry at a concrete matrix, and a concrete
successful settlement whose matrices come from the original base data. -/
theorem claim_C2_witness :
    (((update_execution_times_step2 [[2,4],[0,2]] [[1,1],[1,1]]).getD 0 []).getD 1 0
      = ((([[1,1],[1,1]] : List (List ℚ)).getD 0 []).getD 1 0)
        + colSumQ [[2,4],[0,2]] 1 / (([[2,4],[0,2]] : List (List ℚ)).length : ℚ))
    ∧ ∃ r, ResourceManager.init.process_allocations
          [("S1",[0,0,0,1,1]), ("S2",[0,0,1,1,1]), ("S3",[1,1,1,0,1])] = .ok r
        ∧ r.time_matrix
            = calculate_actual_execution_matrix r.allocation_matrix
                EXECUTION_TIME_MATRIX
        ∧ r.expense_matrix
            = calculate_actual_expense_matrix r.allocation_matrix
                EXECUTION_TIME_MATRIX RESOURCE_PRICES := by
  constructor
  · exact claim_C2_round2_update_and_settlement.1 [[2,4],[0,2]] [[1,1],[1,1]]
      2 0 1 (by decide) (by decide) (by decide) (by decide)
  · obtain ⟨r, hr⟩ : ∃ r, ResourceManager.init.process_allocations
        [("S1",[0,0,0,1,1]), ("S2",[0,0,1,1,1]), ("S3",[1,1,1,0,1])] = .ok r := by
      with_unfolding_all exact ⟨_, rfl⟩
    exact ⟨r, hr, claim_C2_round2_update_and_settlement.2.2 _ r hr⟩

/-- C6 counterexample: with the configured S1 parameters (prices
`[1.0, 1.2, 1.5, 1.8, 2.0]`, base times `[5.0, 4.2, 3.6, 3.0, 2.8]`, `k = 2`,
deadline `500`, budget `20`, `wt = 0.88`, `we = 0.12`) the optimizer does
select `(0, 0, 0, 1, 1)`, but the expected utility it reports is
`25/99 ≈ 0.2525`, not approximately `0.0633` — refuting the utility part of
the claim (the `0.0633` figure appears only in stale docstring examples of
the HTTP layer). -/
theorem claim_C6_counterexample :
    optimize_step1 ((NUM_SUBTASKS.lookup "S1").getD 0) NUM_RESOURCES
        (get_execution_times "S1") RESOURCE_PRICES
        ((WEIGHTS_TIME.lookup "S1").getD 0) ((WEIGHTS_EXPENSE.lookup "S1").getD 0)
        ((TASK_CONSTRAINTS.lookup "S1").getD (0, 0)).1
        ((TASK_CONSTRAINTS.lookup "S1").getD (0, 0)).2
      = .ok ([0, 0, 0, 1, 1], 25/99)
    ∧ ¬(|(25 : ℚ)/99 - 633/10000| ≤ 1/100) :=
  ⟨by with_unfolding_all rfl, by with_unfolding_all decide⟩

/-- C6 amended: on the configured S1 scenario the optimizer selects
allocation `(0, 0, 0, 1, 1)` with expected utility exactly `25/99`, which is
approximately `0.2525`. -/
theorem claim_C6_reference_scenario :
    optimize_step1 ((NUM_SUBTASKS.lookup "S1").getD 0) NUM_RESOURCES
        (get_execution_times "S1") RESOURCE_PRICES
        ((WEIGHTS_TIME.lookup "S1").getD 0) ((WEIGHTS_EXPENSE.lookup "S1").getD 0)
        ((TASK_CONSTRAINTS.lookup "S1").getD (0, 0)).1
        ((TASK_CONSTRAINTS.lookup "S1").getD (0, 0)).2
      = .ok ([0, 0, 0, 1, 1], 25/99)
    ∧ |(25 : ℚ)/99 - 2525/10000| ≤ 1/10000 :=
  ⟨by with_unfolding_all rfl, by with_unfolding_all decide⟩

end CloudResourceAllocation
